import Mathlib

/-!
Verification of the Piconsole repository (pi_bridge.py + pico_main.py):
a shallow embedding of the wire frame codec, the device-side viewport
model, the quadrature decoder and the button debouncer, with theorems
settling the specification's testable properties.

Bytes and characters are modelled as `Nat` (the Python code manipulates
byte values / `ord` values in 0..255; no claim depends on an upper bound
being enforced by the type).  Machine integers do not overflow in any of
the modelled code paths, so plain `Nat`/`Int` arithmetic is exact.
-/

/-- Byte sanitisation used on both sides of the link
(`ch if 32 <= b <= 126 else ' '`): any byte outside the printable ASCII
range 0x20..0x7E becomes a space (32). -/
def sanitize (b : Nat) : Nat :=
  if 32 ≤ b ∧ b ≤ 126 then b else 32

/-- One line of the host-side payload, from `pi_bridge.frame_bytes`:
replace non-printable characters by spaces, then right-pad with spaces to
`cols` characters, or truncate to `cols`. -/
def sanitizeLine (cols : Nat) (line : List Nat) : List Nat :=
  if (line.map sanitize).length < cols then
    line.map sanitize ++ List.replicate (cols - (line.map sanitize).length) 32
  else (line.map sanitize).take cols

/-- The payload built by the loop `for r in range(rows)` in
`pi_bridge.frame_bytes`: row `r` is `text_lines[r] if r < len(text_lines)
else ""`, sanitised and padded/truncated to `cols` bytes. -/
def frame_payload : Nat → Nat → List (List Nat) → List Nat
  | 0, _, _ => []
  | rows + 1, cols, lines => sanitizeLine cols (lines.headD []) ++ frame_payload rows cols lines.tail

/-- `pi_bridge.frame_bytes`: the encoder.  Emits
`[0x02, 'S', rows & 0xFF, cols & 0xFF] ++ payload ++ [0x03]`
(`'S' = 0x53 = 83`, `& 0xFF` is `% 256`). -/
def frame_bytes (rows cols : Nat) (text_lines : List (List Nat)) : List Nat :=
  [2, 83, rows % 256, cols % 256] ++ frame_payload rows cols text_lines ++ [3]

/-!
The UART on the Pico is modelled as a queue of delivery chunks: `uartRead`
returns up to `n` bytes from the chunk currently buffered, or `none` when
nothing is buffered at the moment of the call (MicroPython's `uart.read`
returns `None` then).  An empty chunk in the queue stands for an instant
at which the receive buffer is empty because later bytes have not yet
arrived on the wire.  A stream that is entirely buffered is a single
chunk, on which every read is served in full.
-/

/-- `uart.any() != 0`: at least one byte is currently buffered. -/
def uartAny (u : List (List Nat)) : Bool :=
  match u with
  | [] => false
  | c :: _ => !c.isEmpty

/-- `uart.read(n)`: take up to `n` bytes from the buffered chunk; `none`
when the buffer is empty at this instant. -/
def uartRead (u : List (List Nat)) (n : Nat) : Option (List Nat) × List (List Nat) :=
  match u with
  | [] => (none, [])
  | c :: rest =>
    if c.isEmpty then (none, rest)
    else (some (c.take n), if (c.drop n).isEmpty then rest else c.drop n :: rest)

/-- The payload loop of `pico_main.read_frame`:
`while len(data) < total: chunk = uart.read(total - len(data)); if chunk:
data.extend(chunk)`.  The loop has no exit on missing data, so it is
modelled with explicit fuel; `none` means the loop was still running when
the fuel ran out (the code would still be spinning). -/
def readPayload : Nat → List (List Nat) → Nat → List Nat → Option (List Nat × List (List Nat))
  | 0, chunks, need, acc => if need ≤ acc.length then some (acc, chunks) else none
  | fuel + 1, chunks, need, acc =>
    if need ≤ acc.length then some (acc, chunks)
    else
      match uartRead chunks (need - acc.length) with
      | (none, rest) => readPayload fuel rest need acc
      | (some c, rest) => readPayload fuel rest need (acc ++ c)

/-- `pico_main.read_frame`.  Result component one:
`some none` models `return False`, `some (some (rows, cols, data))` models
`return True` with the decoded header and payload (which the code hands to
`term.apply_snapshot`), `none` models the payload loop still spinning when
the fuel ran out.  Component two is the UART state afterwards. -/
def read_frame (fuel : Nat) (u : List (List Nat)) :
    Option (Option (Nat × Nat × List Nat)) × List (List Nat) :=
  if !uartAny u then (some none, u)
  else
    match uartRead u 1 with
    | (none, u1) => (some none, u1)
    | (some b, u1) =>
      if b.getD 0 0 ≠ 2 then (some none, u1)
      else
        match uartRead u1 1 with
        | (none, u2) => (some none, u2)
        | (some cmd, u2) =>
          if cmd ≠ [83] then (some none, u2)
          else
            match uartRead u2 2 with
            | (none, u3) => (some none, u3)
            | (some hdr, u3) =>
              if hdr.length < 2 then (some none, u3)
              else
                match readPayload fuel u3 (hdr.getD 0 0 * hdr.getD 1 0) [] with
                | none => (none, u3)
                | some (data, u4) =>
                  match uartRead u4 1 with
                  | (none, u5) => (some none, u5)
                  | (some etx, u5) =>
                    if etx.getD 0 0 ≠ 3 then (some none, u5)
                    else (some (some (hdr.getD 0 0, hdr.getD 1 0, data)), u5)

/-- The main loop `while True: if read_frame(): render()`, restricted to
its decoding effect: the first decoded frame within `k` invocations of
`read_frame`, if any. -/
def firstFrame : Nat → Nat → List (List Nat) → Option (Nat × Nat × List Nat)
  | 0, _, _ => none
  | k + 1, fuel, u =>
    match read_frame fuel u with
    | (some (some g), _) => some g
    | (_, u1) => firstFrame k fuel u1

/-- Whether any of `k` successive invocations of `read_frame` decodes a
frame. -/
def anySuccess : Nat → Nat → List (List Nat) → Bool
  | 0, _, _ => false
  | k + 1, fuel, u =>
    match read_frame fuel u with
    | (some (some _), _) => true
    | (_, u1) => anySuccess k fuel u1

/-- Concatenation of a chunk queue (total content of the stream). -/
def flattenChunks : List (List Nat) → List Nat
  | [] => []
  | c :: rest => c ++ flattenChunks rest

/-- The fill loop of `apply_snapshot`: every cell `(r, c)` is overwritten
with the sanitised payload byte at row-major index `r*cols + c`.  (The
Python loop writes into a `rows × cols` buffer in place; since it writes
every cell, the resulting buffer is this recomputation.  Out-of-range
payload indices are totalised with `getD`; `read_frame` always supplies
exactly `rows*cols` bytes.) -/
def snapshotGrid (rows cols : Nat) (data : List Nat) : List (List Nat) :=
  (List.range rows).map fun r =>
    (List.range cols).map fun c => sanitize (data.getD (r * cols + c) 0)

/-- The composition the spec calls `decode`: run `read_frame` on a fully
buffered stream and build the device grid from the decoded header and
payload exactly as `apply_snapshot`'s fill loop (`snapshotGrid`) does. -/
def decode (fuel : Nat) (stream : List Nat) : Option (List (List Nat)) :=
  match (read_frame fuel [stream]).1 with
  | some (some (rows, cols, data)) => some (snapshotGrid rows cols data)
  | _ => none

/-- The `sanitize` map of the spec lifted to a whole grid: every byte
outside 0x20..0x7E becomes a space. -/
def sanitizeGrid (grid : List (List Nat)) : List (List Nat) :=
  grid.map fun row => row.map sanitize

/-!
Device-side state: `pico_main.TerminalView`.  The grid is a list of rows,
each a list of character codes; scroll offsets are integers (the Python
offsets are ints; the stored values are the results of the clamping
expressions, which can involve `rows - 1 = -1` when `rows = 0`, so `Int`
is the faithful carrier).
-/

structure Term where
  rows : Nat
  cols : Nat
  buffer : List (List Nat)
  v_off : Int
  h_off : Int
deriving DecidableEq, Repr

/-- `[[' ']*cols for _ in range(rows)]`: a grid of spaces. -/
def mkGrid (rows cols : Nat) : List (List Nat) :=
  List.replicate rows (List.replicate cols 32)

/-- `TerminalView.apply_snapshot`: resize (and reset the offsets) when the
dimensions changed, then overwrite every cell from the payload
(`snapshotGrid`). -/
def apply_snapshot (t : Term) (rows cols : Nat) (data : List Nat) : Term :=
  let t1 := if rows ≠ t.rows ∨ cols ≠ t.cols then
      { rows := rows, cols := cols, buffer := mkGrid rows cols, v_off := 0, h_off := 0 }
    else t
  { t1 with buffer := snapshotGrid rows cols data }

/-- `TerminalView.scroll_v`: `v_off = max(0, min(rows-1, v_off+delta))`. -/
def scroll_v (t : Term) (delta : Int) : Term :=
  { t with v_off := max 0 (min ((t.rows : Int) - 1) (t.v_off + delta)) }

/-- `TerminalView.scroll_h`: `h_off = max(0, min(cols-1, h_off+delta))`. -/
def scroll_h (t : Term) (delta : Int) : Term :=
  { t with h_off := max 0 (min ((t.cols : Int) - 1) (t.h_off + delta)) }

/-- The grid-row index `rr = min(rows-1, v_off+r)` computed by
`window_lines` for output row `r`. -/
def rowIndex (t : Term) (r : Nat) : Int :=
  min ((t.rows : Int) - 1) (t.v_off + r)

/-- The exclusive column end `end = min(cols, h_off+width)` computed by
`window_lines`; the columns read are `h_off ≤ j < colEnd`. -/
def colEnd (t : Term) (width : Nat) : Int :=
  min (t.cols : Int) (t.h_off + width)

/-- `TerminalView.window_lines`: for each of `height` output rows, slice
`buffer[rr][h_off:end]` and right-pad with spaces to `width`.  Row access
is totalised with `getD` (Python raises `IndexError` on an empty buffer;
the safety theorems about `rowIndex` delimit when that can happen); the
slice itself matches Python slice semantics for the non-negative bounds
produced here. -/
def window_lines (t : Term) (width height : Nat) : List (List Nat) :=
  (List.range height).map fun r =>
    let row := t.buffer.getD (rowIndex t r).toNat []
    let s := (row.drop t.h_off.toNat).take (colEnd t width - t.h_off).toNat
    s ++ List.replicate (width - s.length) 32

/-- The initial device state `TerminalView(TERM_ROWS, TERM_COLS)` with
`TERM_ROWS = 24`, `TERM_COLS = 80`. -/
def term0 : Term :=
  { rows := 24, cols := 80, buffer := mkGrid 24 80, v_off := 0, h_off := 0 }

/-- States of the device viewport reachable from the initial state by the
operations of the main program: snapshot application (with any header the
wire can carry) and the two scroll operations (with any delta). -/
inductive Reachable : Term → Prop
  | init : Reachable term0
  | snap (t : Term) (rows cols : Nat) (data : List Nat) :
      Reachable t → Reachable (apply_snapshot t rows cols data)
  | vstep (t : Term) (d : Int) : Reachable t → Reachable (scroll_v t d)
  | hstep (t : Term) (d : Int) : Reachable t → Reachable (scroll_h t d)

/-- Reachability when every applied snapshot has at least one row and one
column. -/
inductive Reachable1 : Term → Prop
  | init : Reachable1 term0
  | snap (t : Term) (rows cols : Nat) (data : List Nat) :
      1 ≤ rows → 1 ≤ cols → Reachable1 t → Reachable1 (apply_snapshot t rows cols data)
  | vstep (t : Term) (d : Int) : Reachable1 t → Reachable1 (scroll_v t d)
  | hstep (t : Term) (d : Int) : Reachable1 t → Reachable1 (scroll_h t d)

/-- The encoder callback for the vertical channel, `on_v_step`:
`term.scroll_v(-direction)` (the render that follows does not change the
viewport state). -/
def on_v_step (t : Term) (direction : Int) : Term :=
  scroll_v t (-direction)

/-- The encoder callback for the horizontal channel, `on_h_step`:
`term.scroll_h(+direction)`. -/
def on_h_step (t : Term) (direction : Int) : Term :=
  scroll_h t direction

/-!
`pico_main.Encoder._handler`: quadrature decoding.  Phases are 2-bit
values `(a << 1) | b`.
-/

/-- The direction computed by `Encoder._handler` for a phase change:
`+1` for the four forward Gray-code transitions
`(00,01), (01,11), (11,10), (10,00)`, `-1` for any other change. -/
def encStep (last state : Nat) : Int :=
  if (last = 0 ∧ state = 1) ∨ (last = 1 ∧ state = 3) ∨
     (last = 3 ∧ state = 2) ∨ (last = 2 ∧ state = 0) then 1 else -1

/-- One interrupt of `Encoder._handler`: returns the new `last` phase and
the emitted step, `none` when the observed phase equals the last phase
(the handler returns without calling `on_step`). -/
def encHandler (last state : Nat) : Nat × Option Int :=
  if state = last then (last, none) else (state, some (encStep last state))

/-- Feeding a sequence of observed phases through `Encoder._handler`,
accumulating the sum of emitted steps; returns the final `last` phase and
the cumulative sum. -/
def encFeed (last : Nat) : List Nat → Nat × Int
  | [] => (last, 0)
  | s :: rest =>
    if s = last then encFeed last rest
    else
      let p := encFeed s rest
      (p.1, encStep last s + p.2)

/-- `N` repetitions of the forward phase sequence 00→01→11→10→00, as the
list of successive new phases observed from a `last` phase of 00. -/
def fwdSeq : Nat → List Nat
  | 0 => []
  | n + 1 => [1, 3, 2, 0] ++ fwdSeq n

/-- `N` repetitions of the reversed phase sequence 00→10→11→01→00. -/
def revSeq : Nat → List Nat
  | 0 => []
  | n + 1 => [2, 3, 1, 0] ++ revSeq n

/-- The debounce decision of `Button._handler` (`BTN_DEBOUNCE_MS = 200`):
given the stored `last_time` and the current time, return whether the
trigger is accepted and the new stored `last_time`
(`if ticks_diff(now, last) < 200: return` — rejected, state unchanged;
otherwise `last_time = now`). -/
def accept (last now : Int) : Bool × Int :=
  if now - last < 200 then (false, last) else (true, now)

/-! Helper lemmas. -/

theorem sanitize_sanitize (b : Nat) : sanitize (sanitize b) = sanitize b := by
  unfold sanitize
  split <;> simp

theorem sanitize_le (b : Nat) : 32 ≤ sanitize b ∧ sanitize b ≤ 126 := by
  unfold sanitize
  split <;> omega

theorem getD_map (f : Nat → Nat) (l : List Nat) (n d : Nat) (h : n < l.length) :
    (l.map f).getD n d = f (l.getD n d) := by
  rw [List.getD_eq_getElem?_getD, List.getElem?_map,
    List.getElem?_eq_getElem h, List.getD_eq_getElem?_getD, List.getElem?_eq_getElem h]
  rfl

theorem sanitizeLine_length (cols : Nat) (l : List Nat) :
    (sanitizeLine cols l).length = cols := by
  unfold sanitizeLine
  split <;> rename_i h <;> simp only [List.length_map] at h <;> simp <;> omega

theorem sanitizeLine_eq_map (cols : Nat) (l : List Nat) (h : l.length = cols) :
    sanitizeLine cols l = l.map sanitize := by
  unfold sanitizeLine
  split
  · simp at *; omega
  · exact List.take_of_length_le (by simp [h])

theorem frame_payload_length (rows cols : Nat) (lines : List (List Nat)) :
    (frame_payload rows cols lines).length = rows * cols := by
  induction rows generalizing lines with
  | zero => simp [frame_payload]
  | succ n ih => simp [frame_payload, sanitizeLine_length, ih, Nat.succ_mul]; omega

theorem getD_eq_getElem (l : List Nat) (n d : Nat) (h : n < l.length) :
    l.getD n d = l[n] := by
  rw [List.getD_eq_getElem?_getD, List.getElem?_eq_getElem h]
  rfl

theorem getD_eq_getElem2 (l : List (List Nat)) (n : Nat) (h : n < l.length) :
    l.getD n [] = l[n] := by
  rw [List.getD_eq_getElem?_getD, List.getElem?_eq_getElem h]
  rfl

theorem frame_payload_getD (grid : List (List Nat)) :
    ∀ rows cols r c, grid.length = rows → (∀ row ∈ grid, row.length = cols) →
      r < rows → c < cols →
      (frame_payload rows cols grid).getD (r * cols + c) 0 =
        sanitize ((grid.getD r []).getD c 0) := by
  induction grid with
  | nil =>
    intro rows cols r c hlen _ hr _
    simp only [List.length_nil] at hlen
    omega
  | cons g gs ih =>
    intro rows cols r c hlen hrow hr hc
    subst hlen
    have hg : g.length = cols := hrow g (by simp)
    have hpl : frame_payload (g :: gs).length cols (g :: gs) =
        sanitizeLine cols g ++ frame_payload gs.length cols gs := rfl
    cases r with
    | zero =>
      have hcl : c < (sanitizeLine cols g).length := by
        rw [sanitizeLine_length]
        exact hc
      have hcg : c < g.length := by omega
      rw [hpl, Nat.zero_mul, Nat.zero_add, List.getD_append _ _ _ _ hcl,
        sanitizeLine_eq_map cols g hg, getD_map _ _ _ _ hcg]
      simp
    | succ s =>
      have hidx : (s + 1) * cols + c = (sanitizeLine cols g).length + (s * cols + c) := by
        rw [sanitizeLine_length, Nat.succ_mul]
        ring
      have hge : (sanitizeLine cols g).length ≤ (sanitizeLine cols g).length + (s * cols + c) :=
        Nat.le_add_right _ _
      have hs : s < gs.length := by
        simp only [List.length_cons] at hr
        omega
      rw [hpl, hidx, List.getD_append_right _ _ _ _ hge, Nat.add_sub_cancel_left,
        ih gs.length cols s c rfl (fun row hm => hrow row (by simp [hm])) hs hc]
      simp

theorem snapshotGrid_frame_payload (grid : List (List Nat)) (rows cols : Nat)
    (hlen : grid.length = rows) (hrow : ∀ row ∈ grid, row.length = cols) :
    snapshotGrid rows cols (frame_payload rows cols grid) =
      grid.map fun row => row.map sanitize := by
  apply List.ext_getElem
  · simp [snapshotGrid, hlen]
  · intro r h1 h2
    have hrlt : r < rows := by simpa [snapshotGrid] using h1
    have hr' : r < grid.length := by omega
    simp only [snapshotGrid, List.getElem_map, List.getElem_range]
    have hgr : grid[r].length = cols := hrow grid[r] (List.getElem_mem hr')
    apply List.ext_getElem
    · simp [hgr]
    · intro c hc1 hc2
      have hclt : c < cols := by simpa using hc1
      have hc' : c < grid[r].length := by omega
      simp only [List.getElem_map, List.getElem_range]
      rw [frame_payload_getD grid rows cols r c hlen hrow hrlt hclt, sanitize_sanitize,
        getD_eq_getElem2 grid r hr', getD_eq_getElem grid[r] c 0 hc']

theorem isEmpty_false_of_ne (l : List Nat) (h : l ≠ []) : l.isEmpty = false := by
  cases l with
  | nil => simp at h
  | cons a t => rfl

theorem isEmpty_append_singleton (l : List Nat) (a : Nat) : (l ++ [a]).isEmpty = false := by
  cases l <;> rfl

theorem take_one (a : Nat) (l : List Nat) : (a :: l).take 1 = [a] := rfl

theorem drop_one (a : Nat) (l : List Nat) : (a :: l).drop 1 = l := rfl

theorem take_two (a b : Nat) (l : List Nat) : (a :: b :: l).take 2 = [a, b] := rfl

theorem drop_two (a b : Nat) (l : List Nat) : (a :: b :: l).drop 2 = l := rfl

theorem readPayload_done (fuel : Nat) (chunks : List (List Nat)) (need : Nat) (acc : List Nat)
    (h : need ≤ acc.length) : readPayload fuel chunks need acc = some (acc, chunks) := by
  cases fuel <;> simp [readPayload, h]

theorem readPayload_single (fuel : Nat) (payload rest : List Nat)
    (hrest : rest ≠ []) (hfuel : 1 ≤ fuel) :
    readPayload fuel [payload ++ rest] payload.length [] = some (payload, [rest]) := by
  cases payload with
  | nil => simpa using readPayload_done fuel [[] ++ rest] 0 [] (by simp)
  | cons p ps =>
    obtain ⟨f, rfl⟩ : ∃ f, fuel = f + 1 := ⟨fuel - 1, by omega⟩
    have e1 : uartRead [(p :: ps) ++ rest] ((p :: ps).length - ([] : List Nat).length) =
        (some (p :: ps), [rest]) := by
      simp only [List.length_nil, Nat.sub_zero, List.cons_append, uartRead,
        List.isEmpty_cons, Bool.false_eq_true, if_false]
      rw [← List.cons_append, List.take_left, List.drop_left,
        isEmpty_false_of_ne rest hrest]
      simp
    unfold readPayload
    rw [if_neg (by simp), e1]
    exact readPayload_done f [rest] (p :: ps).length ([] ++ (p :: ps)) (by simp)

theorem readPayload_chunked (pchunks : List (List Nat)) :
    ∀ fuel rest acc need, (∀ c ∈ pchunks, c ≠ []) →
      acc.length + (flattenChunks pchunks).length = need →
      pchunks.length ≤ fuel →
      readPayload fuel (pchunks ++ rest) need acc =
        some (acc ++ flattenChunks pchunks, rest) := by
  induction pchunks with
  | nil =>
    intro fuel rest acc need _ hlen _
    simp only [flattenChunks, List.length_nil, Nat.add_zero] at hlen
    simpa [flattenChunks] using readPayload_done fuel rest need acc (by omega)
  | cons c cs ih =>
    intro fuel rest acc need hne hlen hfuel
    have hcne : c ≠ [] := hne c (by simp)
    have hclen : 1 ≤ c.length := by
      cases c with
      | nil => simp at hcne
      | cons a t => simp
    obtain ⟨f, rfl⟩ : ∃ f, fuel = f + 1 := ⟨fuel - 1, by simp at hfuel; omega⟩
    have hflat : flattenChunks (c :: cs) = c ++ flattenChunks cs := rfl
    rw [hflat, List.length_append] at hlen
    have hcle : c.length ≤ need - acc.length := by omega
    have e1 : uartRead ((c :: cs) ++ rest) (need - acc.length) =
        (some c, cs ++ rest) := by
      rw [List.cons_append]
      simp only [uartRead, isEmpty_false_of_ne c hcne, Bool.false_eq_true, if_false,
        List.take_of_length_le hcle, List.drop_eq_nil_of_le hcle, List.isEmpty_nil, if_true]
    unfold readPayload
    rw [if_neg (by omega), e1]
    show readPayload f (cs ++ rest) need (acc ++ c) = _
    rw [ih f rest (acc ++ c) need (fun x hx => hne x (by simp [hx]))
        (by simp; omega) (by simp at hfuel ⊢; omega),
      List.append_assoc, hflat]

theorem readPayload_stall (fuel : Nat) :
    ∀ chunks need acc, acc.length + (flattenChunks chunks).length < need →
      readPayload fuel chunks need acc = none := by
  induction fuel with
  | zero =>
    intro chunks need acc h
    simp only [readPayload]
    rw [if_neg (by omega)]
  | succ f ih =>
    intro chunks need acc h
    unfold readPayload
    rw [if_neg (by omega)]
    cases chunks with
    | nil =>
      show readPayload f [] need acc = none
      exact ih [] need acc (by simpa [flattenChunks] using h)
    | cons c rest =>
      by_cases hc : c = []
      · subst hc
        show readPayload f rest need acc = none
        refine ih rest need acc ?_
        simpa [flattenChunks] using h
      · have e1 : uartRead (c :: rest) (need - acc.length) =
            (some (c.take (need - acc.length)),
              if (c.drop (need - acc.length)).isEmpty then rest
                else c.drop (need - acc.length) :: rest) := by
          simp [uartRead, isEmpty_false_of_ne c hc]
        rw [e1]
        have hflat : flattenChunks (c :: rest) = c ++ flattenChunks rest := rfl
        rw [hflat, List.length_append] at h
        by_cases hd : (c.drop (need - acc.length)).isEmpty
        · rw [if_pos hd]
          show readPayload f rest need (acc ++ c.take (need - acc.length)) = none
          refine ih rest need _ ?_
          have : (c.take (need - acc.length)).length ≤ c.length := by
            simp [List.length_take]
          simp only [List.length_append]
          omega
        · rw [if_neg hd]
          show readPayload f (c.drop (need - acc.length) :: rest) need
            (acc ++ c.take (need - acc.length)) = none
          refine ih _ need _ ?_
          have h1 : (c.take (need - acc.length)).length = min (need - acc.length) c.length :=
            List.length_take _ _
          have h2 : (c.drop (need - acc.length)).length = c.length - (need - acc.length) :=
            List.length_drop _ _
          have hflat2 : flattenChunks (c.drop (need - acc.length) :: rest) =
              c.drop (need - acc.length) ++ flattenChunks rest := rfl
          simp only [List.length_append, hflat2]
          omega

theorem read_frame_single (fuel rows cols : Nat) (payload : List Nat)
    (hlen : payload.length = rows * cols) (hfuel : 1 ≤ fuel) :
    read_frame fuel [2 :: 83 :: rows :: cols :: (payload ++ [3])] =
      (some (some (rows, cols, payload)), []) := by
  have e1 : uartRead [2 :: 83 :: rows :: cols :: (payload ++ [3])] 1 =
      (some [2], [83 :: rows :: cols :: (payload ++ [3])]) := rfl
  have e2 : uartRead [83 :: rows :: cols :: (payload ++ [3])] 1 =
      (some [83], [rows :: cols :: (payload ++ [3])]) := rfl
  have e3 : uartRead [rows :: cols :: (payload ++ [3])] 2 =
      (some [rows, cols], [payload ++ [3]]) := by
    simp only [uartRead, List.isEmpty_cons, Bool.false_eq_true, if_false, take_two,
      drop_two, isEmpty_append_singleton]
  have hp : readPayload fuel [payload ++ [3]] (rows * cols) [] = some (payload, [[3]]) := by
    rw [← hlen]
    exact readPayload_single fuel payload [3] (by simp) hfuel
  have e4 : uartRead [[3]] 1 = (some [3], []) := rfl
  simp [read_frame, uartAny, e1, e2, e3, hp, e4]

theorem read_frame_chunked (fuel rows cols : Nat) (pchunks : List (List Nat))
    (hne : ∀ c ∈ pchunks, c ≠ [])
    (hlen : (flattenChunks pchunks).length = rows * cols)
    (hfuel : pchunks.length ≤ fuel) :
    read_frame fuel ([2, 83, rows, cols] :: (pchunks ++ [[3]])) =
      (some (some (rows, cols, flattenChunks pchunks)), []) := by
  have e1 : uartRead ([2, 83, rows, cols] :: (pchunks ++ [[3]])) 1 =
      (some [2], [83, rows, cols] :: (pchunks ++ [[3]])) := rfl
  have e2 : uartRead ([83, rows, cols] :: (pchunks ++ [[3]])) 1 =
      (some [83], [rows, cols] :: (pchunks ++ [[3]])) := rfl
  have e3 : uartRead ([rows, cols] :: (pchunks ++ [[3]])) 2 =
      (some [rows, cols], pchunks ++ [[3]]) := rfl
  have hp : readPayload fuel (pchunks ++ [[3]]) (rows * cols) [] =
      some (flattenChunks pchunks, [[3]]) := by
    rw [← hlen]
    simpa using readPayload_chunked pchunks fuel [[3]] [] (flattenChunks pchunks).length
      hne (by simp) hfuel
  have e4 : uartRead [[3]] 1 = (some [3], []) := rfl
  simp [read_frame, uartAny, e1, e2, e3, hp, e4]

theorem read_frame_stall (fuel rows cols : Nat) (rest : List Nat)
    (hlen : rest.length < rows * cols) :
    (read_frame fuel [2 :: 83 :: rows :: cols :: rest]).1 = none := by
  have e1 : uartRead [2 :: 83 :: rows :: cols :: rest] 1 =
      (some [2], [83 :: rows :: cols :: rest]) := rfl
  have e2 : uartRead [83 :: rows :: cols :: rest] 1 =
      (some [83], [rows :: cols :: rest]) := rfl
  by_cases hr : rest = []
  · subst hr
    have e3 : uartRead [rows :: cols :: ([] : List Nat)] 2 = (some [rows, cols], []) := rfl
    have hp : readPayload fuel [] (rows * cols) [] = none :=
      readPayload_stall fuel [] (rows * cols) [] (by simpa [flattenChunks] using hlen)
    simp [read_frame, uartAny, e1, e2, e3, hp]
  · have e3 : uartRead [rows :: cols :: rest] 2 = (some [rows, cols], [rest]) := by
      simp only [uartRead, List.isEmpty_cons, Bool.false_eq_true, if_false, take_two,
        drop_two, isEmpty_false_of_ne rest hr]
    have hp : readPayload fuel [rest] (rows * cols) [] = none := by
      refine readPayload_stall fuel [rest] (rows * cols) [] ?_
      simpa [flattenChunks] using hlen
    simp [read_frame, uartAny, e1, e2, e3, hp]

theorem read_frame_garbage (fuel g : Nat) (rest : List Nat)
    (hg : g ≠ 2) (hrest : rest ≠ []) :
    read_frame fuel [g :: rest] = (some none, [rest]) := by
  have e1 : uartRead [g :: rest] 1 = (some [g], [rest]) := by
    simp only [uartRead, List.isEmpty_cons, Bool.false_eq_true, if_false, take_one,
      drop_one, isEmpty_false_of_ne rest hrest]
  simp [read_frame, uartAny, e1, hg]

theorem firstFrame_garbage (fuel rows cols : Nat) (payload : List Nat)
    (hlen : payload.length = rows * cols) (hfuel : 1 ≤ fuel) :
    ∀ garbage : List Nat, (∀ g ∈ garbage, g ≠ 2) →
      firstFrame (garbage.length + 1) fuel
          [garbage ++ (2 :: 83 :: rows :: cols :: (payload ++ [3]))] =
        some (rows, cols, payload) := by
  intro garbage
  induction garbage with
  | nil =>
    intro _
    show firstFrame 1 fuel [2 :: 83 :: rows :: cols :: (payload ++ [3])] = _
    simp [firstFrame, read_frame_single fuel rows cols payload hlen hfuel]
  | cons g gs ih =>
    intro hg
    have h1 : read_frame fuel [g :: (gs ++ (2 :: 83 :: rows :: cols :: (payload ++ [3])))] =
        (some none, [gs ++ (2 :: 83 :: rows :: cols :: (payload ++ [3]))]) :=
      read_frame_garbage fuel g _ (hg g (by simp)) (by simp)
    show firstFrame (gs.length + 1 + 1) fuel
        [(g :: gs) ++ (2 :: 83 :: rows :: cols :: (payload ++ [3]))] = _
    rw [List.cons_append]
    simp only [firstFrame, h1]
    exact ih fun x hx => hg x (by simp [hx])

theorem apply_snapshot_rows (t : Term) (rows cols : Nat) (data : List Nat) :
    (apply_snapshot t rows cols data).rows = rows := by
  unfold apply_snapshot
  split <;> simp_all

theorem apply_snapshot_cols (t : Term) (rows cols : Nat) (data : List Nat) :
    (apply_snapshot t rows cols data).cols = cols := by
  unfold apply_snapshot
  split <;> simp_all

theorem apply_snapshot_buffer (t : Term) (rows cols : Nat) (data : List Nat) :
    (apply_snapshot t rows cols data).buffer = snapshotGrid rows cols data := by
  unfold apply_snapshot
  split <;> rfl

theorem apply_snapshot_v_off (t : Term) (rows cols : Nat) (data : List Nat) :
    (apply_snapshot t rows cols data).v_off =
      if rows = t.rows ∧ cols = t.cols then t.v_off else 0 := by
  unfold apply_snapshot
  split <;> rename_i hc
  · rw [if_neg (by tauto)]
  · push_neg at hc
    rw [if_pos ⟨hc.1, hc.2⟩]

theorem apply_snapshot_h_off (t : Term) (rows cols : Nat) (data : List Nat) :
    (apply_snapshot t rows cols data).h_off =
      if rows = t.rows ∧ cols = t.cols then t.h_off else 0 := by
  unfold apply_snapshot
  split <;> rename_i hc
  · rw [if_neg (by tauto)]
  · push_neg at hc
    rw [if_pos ⟨hc.1, hc.2⟩]

theorem snapshotGrid_length (rows cols : Nat) (data : List Nat) :
    (snapshotGrid rows cols data).length = rows := by
  simp [snapshotGrid]

theorem snapshotGrid_mem_length (rows cols : Nat) (data : List Nat) (row : List Nat)
    (h : row ∈ snapshotGrid rows cols data) : row.length = cols := by
  simp only [snapshotGrid, List.mem_map] at h
  obtain ⟨r, _, hr⟩ := h
  simp [← hr]

theorem reachable_shape (t : Term) (h : Reachable t) :
    t.buffer.length = t.rows ∧ ∀ row ∈ t.buffer, row.length = t.cols := by
  induction h with
  | init =>
    refine ⟨rfl, ?_⟩
    intro row hm
    simp only [term0, mkGrid] at hm
    have := List.eq_of_mem_replicate hm
    simp [term0, this]
  | snap t rows cols data _ _ =>
    rw [apply_snapshot_buffer, apply_snapshot_rows, apply_snapshot_cols]
    exact ⟨snapshotGrid_length rows cols data,
      fun row hm => snapshotGrid_mem_length rows cols data row hm⟩
  | vstep t d _ ih => exact ih
  | hstep t d _ ih => exact ih

theorem reachable_off_nonneg (t : Term) (h : Reachable t) :
    0 ≤ t.v_off ∧ 0 ≤ t.h_off := by
  induction h with
  | init => exact ⟨le_refl 0, le_refl 0⟩
  | snap t rows cols data _ ih =>
    rw [apply_snapshot_v_off, apply_snapshot_h_off]
    constructor <;> split <;> first | exact ih.1 | exact ih.2 | exact le_refl 0
  | vstep t d _ ih =>
    exact ⟨le_max_left 0 _, ih.2⟩
  | hstep t d _ ih =>
    exact ⟨ih.1, le_max_left 0 _⟩

theorem reachable1_inv (t : Term) (h : Reachable1 t) :
    (0 ≤ t.v_off ∧ t.v_off ≤ (t.rows : Int) - 1 ∧
      0 ≤ t.h_off ∧ t.h_off ≤ (t.cols : Int) - 1) ∧
      1 ≤ t.rows ∧ 1 ≤ t.cols := by
  induction h with
  | init =>
    refine ⟨⟨le_refl 0, ?_, le_refl 0, ?_⟩, by norm_num [term0], by norm_num [term0]⟩ <;>
      norm_num [term0]
  | snap t rows cols data hr hc _ ih =>
    rw [apply_snapshot_v_off, apply_snapshot_h_off, apply_snapshot_rows, apply_snapshot_cols]
    obtain ⟨⟨iv0, iv1, ih0, ih1⟩, ir, ic⟩ := ih
    refine ⟨?_, hr, hc⟩
    split <;> rename_i hdim
    · obtain ⟨h1, h2⟩ := hdim
      subst h1; subst h2
      exact ⟨iv0, iv1, ih0, ih1⟩
    · refine ⟨le_refl 0, ?_, le_refl 0, ?_⟩ <;> omega
  | vstep t d _ ih =>
    obtain ⟨⟨iv0, iv1, ih0, ih1⟩, ir, ic⟩ := ih
    refine ⟨⟨?_, ?_, ih0, ih1⟩, ir, ic⟩ <;> simp only [scroll_v] <;> omega
  | hstep t d _ ih =>
    obtain ⟨⟨iv0, iv1, ih0, ih1⟩, ir, ic⟩ := ih
    refine ⟨⟨iv0, iv1, ?_, ?_⟩, ir, ic⟩ <;> simp only [scroll_h] <;> omega

theorem encFeed_fwd (n : Nat) : encFeed 0 (fwdSeq n) = (0, 4 * (n : Int)) := by
  induction n with
  | zero => simp [fwdSeq, encFeed]
  | succ m ih =>
    show encFeed 0 (1 :: 3 :: 2 :: 0 :: fwdSeq m) = _
    norm_num [encFeed, encStep, ih]
    ring

theorem encFeed_rev (n : Nat) : encFeed 0 (revSeq n) = (0, -(4 * (n : Int))) := by
  induction n with
  | zero => simp [revSeq, encFeed]
  | succ m ih =>
    show encFeed 0 (2 :: 3 :: 1 :: 0 :: revSeq m) = _
    norm_num [encFeed, encStep, ih]
    ring

theorem window_lines_mem_length (t : Term) (width height : Nat) :
    ∀ l ∈ window_lines t width height, l.length = width := by
  intro l hm
  simp only [window_lines, List.mem_map] at hm
  obtain ⟨r, _, hr⟩ := hm
  have hb : (colEnd t width - t.h_off).toNat ≤ width := by
    have h1 : colEnd t width - t.h_off ≤ (width : Int) := by
      simp only [colEnd]
      omega
    omega
  have hlen : (((t.buffer.getD (rowIndex t r).toNat []).drop t.h_off.toNat).take
      (colEnd t width - t.h_off).toNat).length ≤ width := by
    calc (((t.buffer.getD (rowIndex t r).toNat []).drop t.h_off.toNat).take
        (colEnd t width - t.h_off).toNat).length
        ≤ (colEnd t width - t.h_off).toNat := by
          rw [List.length_take]
          omega
      _ ≤ width := hb
  rw [← hr]
  simp only [List.length_append, List.length_replicate]
  omega

/-! The claims. -/

/-- C1: for every grid with rows and cols each in [1,255] and arbitrary
byte content, decoding the bytes produced by the encoder (`frame_bytes`)
yields exactly the sanitised grid: `decode (encode grid) = sanitize grid`,
where sanitise maps every byte outside 0x20..0x7E to the space
character. -/
theorem C1_roundtrip (fuel rows cols : Nat) (grid : List (List Nat))
    (h1 : 1 ≤ rows) (h2 : rows ≤ 255) (h3 : 1 ≤ cols) (h4 : cols ≤ 255)
    (hlen : grid.length = rows) (hrow : ∀ row ∈ grid, row.length = cols)
    (hfuel : 1 ≤ fuel) :
    decode fuel (frame_bytes rows cols grid) = some (sanitizeGrid grid) := by
  have hfb : frame_bytes rows cols grid =
      2 :: 83 :: rows :: cols :: (frame_payload rows cols grid ++ [3]) := by
    simp [frame_bytes, Nat.mod_eq_of_lt (show rows < 256 by omega),
      Nat.mod_eq_of_lt (show cols < 256 by omega)]
  unfold decode
  rw [hfb, read_frame_single fuel rows cols _ (frame_payload_length rows cols grid) hfuel]
  show some (snapshotGrid rows cols (frame_payload rows cols grid)) = _
  rw [snapshotGrid_frame_payload grid rows cols hlen hrow]
  rfl

/-- Witness for C1 at a concrete 1×2 grid containing the non-printable
byte 200 (which round-trips as a space). -/
theorem C1_roundtrip_witness :
    (1 ≤ 1 ∧ 1 ≤ 255 ∧ 1 ≤ 2 ∧ 2 ≤ 255 ∧ 1 ≤ 1) ∧
    ([[65, 200]] : List (List Nat)).length = 1 ∧
    (∀ row ∈ ([[65, 200]] : List (List Nat)), row.length = 2) ∧
    decode 1 (frame_bytes 1 2 [[65, 200]]) = some (sanitizeGrid [[65, 200]]) :=
  ⟨by decide, by decide, by decide,
    C1_roundtrip 1 1 2 [[65, 200]] (by decide) (by decide) (by decide) (by decide)
      (by decide) (by decide) (by decide)⟩

/-- C2: a stream that begins with a correct header (0x02, 'S', one row
byte, one column byte) but then ends with fewer than rows*cols payload
bytes never yields a decoded grid: for every fuel bound the payload loop
is still spinning (result `none`), matching the spec's "keep waiting until
total payload length satisfied" stall. -/
theorem C2_truncated (fuel rows cols : Nat) (rest : List Nat)
    (hlen : rest.length < rows * cols) :
    (read_frame fuel [2 :: 83 :: rows :: cols :: rest]).1 = none :=
  read_frame_stall fuel rows cols rest hlen

/-- Witness for C2: a 1×2 frame whose payload is truncated to one byte. -/
theorem C2_truncated_witness :
    ([65] : List Nat).length < 1 * 2 ∧
    (read_frame 5 [2 :: 83 :: 1 :: 2 :: [65]]).1 = none :=
  ⟨by decide, C2_truncated 5 1 2 [65] (by decide)⟩

/-- C3 counterexample: the well-formed 1×2 frame
`[0x02, 'S', 1, 2, 65, 66, 0x03]` delivered in the two chunks
`[0x02, 'S', 1]` and `[2, 65, 66, 0x03]` is never decoded: the read of the
two dimension bytes returns only one byte and the decoder returns False
instead of retrying (first conjunct; the fuel bound only limits the
payload loop, which is never reached), and the ten following invocations
of the decoder on the remains of the stream never return a grid either
(second conjunct).  This refutes the claim that the decoder retries on
partial reads of the dimension bytes and still returns the decoded
grid. -/
theorem C3_counterexample :
    (read_frame 10 [[2, 83, 1], [2, 65, 66, 3]]).1 = some none ∧
    anySuccess 10 10 [[2, 83, 1], [2, 65, 66, 3]] = false := by decide

/-- C3 amended: the decoder retries partial reads only inside the payload
loop.  When the four header bytes are available together, the payload is
split into arbitrarily many non-empty chunks of arbitrary sizes, and the
end-marker byte is available when read, the decoder still returns the
decoded grid. -/
theorem C3_payload_chunks (fuel rows cols : Nat) (pchunks : List (List Nat))
    (hne : ∀ c ∈ pchunks, c ≠ [])
    (hlen : (flattenChunks pchunks).length = rows * cols)
    (hfuel : pchunks.length ≤ fuel) :
    read_frame fuel ([2, 83, rows, cols] :: (pchunks ++ [[3]])) =
      (some (some (rows, cols, flattenChunks pchunks)), []) :=
  read_frame_chunked fuel rows cols pchunks hne hlen hfuel

/-- Witness for the amended C3: a 1×2 payload delivered one byte at a
time. -/
theorem C3_payload_chunks_witness :
    (∀ c ∈ ([[65], [66]] : List (List Nat)), c ≠ []) ∧
    (flattenChunks [[65], [66]]).length = 1 * 2 ∧
    ([[65], [66]] : List (List Nat)).length ≤ 2 ∧
    read_frame 2 ([2, 83, 1, 2] :: ([[65], [66]] ++ [[3]])) =
      (some (some (1, 2, flattenChunks [[65], [66]])), []) :=
  ⟨by decide, by decide, by decide,
    C3_payload_chunks 2 1 2 [[65], [66]] (by decide) (by decide) (by decide)⟩

/-- C4: for a stream of garbage bytes containing no start marker followed
by a well-formed encoded frame, repeated invocation of the decoder
consumes one garbage byte per failed invocation, resynchronises at the
start marker and parses the frame: within garbage-length + 1 invocations
the decoded header and payload are returned. -/
theorem C4_resync (fuel rows cols : Nat) (garbage : List Nat) (grid : List (List Nat))
    (hg : ∀ g ∈ garbage, g ≠ 2) (h2 : rows ≤ 255) (h4 : cols ≤ 255) (hfuel : 1 ≤ fuel) :
    firstFrame (garbage.length + 1) fuel [garbage ++ frame_bytes rows cols grid] =
      some (rows, cols, frame_payload rows cols grid) := by
  have hfb : frame_bytes rows cols grid =
      2 :: 83 :: rows :: cols :: (frame_payload rows cols grid ++ [3]) := by
    simp [frame_bytes, Nat.mod_eq_of_lt (show rows < 256 by omega),
      Nat.mod_eq_of_lt (show cols < 256 by omega)]
  rw [hfb]
  exact firstFrame_garbage fuel rows cols _ (frame_payload_length rows cols grid) hfuel
    garbage hg

/-- Witness for C4: two garbage bytes then a 1×1 frame. -/
theorem C4_resync_witness :
    (∀ g ∈ ([0, 65] : List Nat), g ≠ 2) ∧ (1 ≤ 255 ∧ 1 ≤ 1) ∧
    firstFrame 3 1 [[0, 65] ++ frame_bytes 1 1 [[200]]] =
      some (1, 1, frame_payload 1 1 [[200]]) :=
  ⟨by decide, by decide,
    C4_resync 1 1 1 [0, 65] [[200]] (by decide) (by decide) (by decide) (by decide)⟩

/-- C5 counterexample: applying a snapshot with zero rows (a header the
wire can carry: row-count byte 0) is a reachable viewport state in which
`window_lines`'s row-index computation `min(rows-1, v_off+r)` yields −1,
outside [0, rows) — refuting the claim that the computation never indexes
a grid row outside [0, rows) in every reachable state (in Python,
`buffer[-1]` on the empty buffer raises IndexError). -/
theorem C5_counterexample :
    Reachable (apply_snapshot term0 0 1 []) ∧
      rowIndex (apply_snapshot term0 0 1 []) 0 < 0 :=
  ⟨Reachable.snap term0 0 1 [] Reachable.init, by decide⟩

/-- C5 amended: for every reachable viewport state whose current grid has
at least one row, and for every requested width and height,
`window_lines` returns exactly `height` lines each of exactly `width`
characters, every computed row index lies in [0, rows), and every column
read lies in [0, cols). -/
theorem C5_window_safe (t : Term) (hreach : Reachable t) (hrows : 1 ≤ t.rows)
    (width height : Nat) :
    (window_lines t width height).length = height ∧
    (∀ l ∈ window_lines t width height, l.length = width) ∧
    (∀ r : Nat, r < height → 0 ≤ rowIndex t r ∧ rowIndex t r < (t.rows : Int)) ∧
    (∀ j : Int, t.h_off ≤ j → j < colEnd t width → 0 ≤ j ∧ j < (t.cols : Int)) := by
  obtain ⟨hv0, hh0⟩ := reachable_off_nonneg t hreach
  refine ⟨by simp [window_lines], window_lines_mem_length t width height, ?_, ?_⟩
  · intro r _
    constructor
    · simp only [rowIndex]
      omega
    · simp only [rowIndex]
      omega
  · intro j hj1 hj2
    simp only [colEnd] at hj2
    omega

/-- Witness for the amended C5 at the initial state with the real display
geometry 16×2. -/
theorem C5_window_safe_witness :
    Reachable term0 ∧ 1 ≤ term0.rows ∧
    ((window_lines term0 16 2).length = 2 ∧
      (∀ l ∈ window_lines term0 16 2, l.length = 16) ∧
      (∀ r : Nat, r < 2 → 0 ≤ rowIndex term0 r ∧ rowIndex term0 r < (term0.rows : Int)) ∧
      (∀ j : Int, term0.h_off ≤ j → j < colEnd term0 16 → 0 ≤ j ∧ j < (term0.cols : Int))) :=
  ⟨Reachable.init, by decide, C5_window_safe term0 Reachable.init (by decide) 16 2⟩

/-- C6: the invariant 0 ≤ v_off ≤ rows−1 and 0 ≤ h_off ≤ cols−1 holds in
the initial viewport state and is preserved by apply_snapshot (for grids
with rows ≥ 1 and cols ≥ 1) and by scroll_v / scroll_h with any delta:
it holds in every state reachable under those operations. -/
theorem C6_invariant (t : Term) (h : Reachable1 t) :
    0 ≤ t.v_off ∧ t.v_off ≤ (t.rows : Int) - 1 ∧
      0 ≤ t.h_off ∧ t.h_off ≤ (t.cols : Int) - 1 :=
  (reachable1_inv t h).1

/-- Witness for C6 after an over-large scroll from the initial state. -/
theorem C6_invariant_witness :
    Reachable1 (scroll_v term0 100) ∧
    (0 ≤ (scroll_v term0 100).v_off ∧
      (scroll_v term0 100).v_off ≤ ((scroll_v term0 100).rows : Int) - 1 ∧
      0 ≤ (scroll_v term0 100).h_off ∧
      (scroll_v term0 100).h_off ≤ ((scroll_v term0 100).cols : Int) - 1) :=
  ⟨Reachable1.vstep term0 100 Reachable1.init,
    C6_invariant (scroll_v term0 100) (Reachable1.vstep term0 100 Reachable1.init)⟩

/-- C7: apply_snapshot resets both scroll offsets to (0,0) exactly when
the incoming dimensions differ from the current ones, and leaves both
offsets unchanged when they are equal. -/
theorem C7_offsets (t : Term) (rows cols : Nat) (data : List Nat) :
    (apply_snapshot t rows cols data).v_off =
        (if rows = t.rows ∧ cols = t.cols then t.v_off else 0) ∧
      (apply_snapshot t rows cols data).h_off =
        (if rows = t.rows ∧ cols = t.cols then t.h_off else 0) :=
  ⟨apply_snapshot_v_off t rows cols data, apply_snapshot_h_off t rows cols data⟩

/-- C8: feeding the quadrature decoder the forward transition sequence
00→01→11→10→00 repeated N times sums the emitted steps to +4N, the
reversed sequence to −4N, and a transition whose new phase equals the last
phase emits no step. -/
theorem C8_quadrature :
    (∀ n : Nat, (encFeed 0 (fwdSeq n)).2 = 4 * (n : Int)) ∧
    (∀ n : Nat, (encFeed 0 (revSeq n)).2 = -(4 * (n : Int))) ∧
    (∀ last : Nat, encHandler last last = (last, none)) :=
  ⟨fun n => by rw [encFeed_fwd], fun n => by rw [encFeed_rev],
    fun last => by simp [encHandler]⟩

/-- C9 counterexample: the stored last-accepted time starts at 0
(`self.last_time = 0`), so the trigger pair t1 = 0, t2 = 300 — with
t2 − t1 = 300 ≥ 200 — produces decisions (false, true), not the
(true, true) the claim requires for every pair of trigger times. -/
theorem C9_counterexample :
    accept 0 0 = (false, 0) ∧ accept (accept 0 0).2 300 = (true, 300) := by decide

/-- C9 amended: provided the first trigger is itself accepted (it falls at
least the debounce interval of 200 after the stored last-accepted time),
two triggers at t1 < t2 give decisions (true, false) when t2 − t1 < 200 —
with the rejected trigger leaving the stored time unchanged — and
(true, true) when t2 − t1 ≥ 200. -/
theorem C9_debounce (last t1 t2 : Int) (h0 : 200 ≤ t1 - last) (h12 : t1 < t2) :
    (accept last t1).1 = true ∧
    (t2 - t1 < 200 → (accept (accept last t1).2 t2).1 = false ∧
      (accept (accept last t1).2 t2).2 = (accept last t1).2) ∧
    (200 ≤ t2 - t1 → (accept (accept last t1).2 t2).1 = true) := by
  have e1 : accept last t1 = (true, t1) := by
    unfold accept
    rw [if_neg (by omega)]
  rw [e1]
  refine ⟨rfl, ?_, ?_⟩
  · intro h
    rw [show accept (true, t1).2 t2 = (false, t1) from by unfold accept; rw [if_pos (by omega)]]
    exact ⟨rfl, rfl⟩
  · intro h
    rw [show accept (true, t1).2 t2 = (true, t2) from by unfold accept; rw [if_neg (by omega)]]

/-- Witness for the amended C9 with an accepted first trigger and a far
second trigger. -/
theorem C9_debounce_witness :
    (200 : Int) ≤ 200 - 0 ∧ (200 : Int) < 500 ∧
    ((accept 0 200).1 = true ∧
      ((500 : Int) - 200 < 200 → (accept (accept 0 200).2 500).1 = false ∧
        (accept (accept 0 200).2 500).2 = (accept 0 200).2) ∧
      (200 ≤ (500 : Int) - 200 → (accept (accept 0 200).2 500).1 = true)) :=
  ⟨by decide, by decide, C9_debounce 0 200 500 (by decide) (by decide)⟩

/-- C10: the vertical encoder's registered callback applies the scroll
with the negated direction (`scroll_v (-d)`) while the horizontal one
applies it unnegated (`scroll_h d`); consequently, away from the clamp
boundaries, a forward step (+1) strictly decreases the vertical offset
and strictly increases the horizontal offset. -/
theorem C10_callbacks (t : Term) :
    on_v_step t 1 = scroll_v t (-1) ∧
    on_v_step t (-1) = scroll_v t 1 ∧
    on_h_step t 1 = scroll_h t 1 ∧
    on_h_step t (-1) = scroll_h t (-1) ∧
    (0 < t.v_off → t.v_off ≤ (t.rows : Int) - 1 → (on_v_step t 1).v_off < t.v_off) ∧
    (0 ≤ t.h_off → t.h_off + 1 ≤ (t.cols : Int) - 1 → t.h_off < (on_h_step t 1).h_off) := by
  refine ⟨rfl, by norm_num [on_v_step], rfl, rfl, ?_, ?_⟩
  · intro hp hb
    simp only [on_v_step, scroll_v]
    omega
  · intro hp hb
    simp only [on_h_step, scroll_h]
    omega

/-- Witness for C10 at a 4×4 grid with offsets (2,1), strictly inside the
clamp range. -/
theorem C10_callbacks_witness :
    ((0 : Int) < 2 ∧ (2 : Int) ≤ (4 : Int) - 1) ∧
    ((0 : Int) ≤ 1 ∧ (1 : Int) + 1 ≤ (4 : Int) - 1) ∧
    (on_v_step (Term.mk 4 4 (mkGrid 4 4) 2 1) 1).v_off < 2 ∧
    (1 : Int) < (on_h_step (Term.mk 4 4 (mkGrid 4 4) 2 1) 1).h_off :=
  ⟨⟨by decide, by decide⟩, ⟨by decide, by decide⟩,
    (C10_callbacks (Term.mk 4 4 (mkGrid 4 4) 2 1)).2.2.2.2.1 (by decide) (by decide),
    (C10_callbacks (Term.mk 4 4 (mkGrid 4 4) 2 1)).2.2.2.2.2 (by decide) (by decide)⟩
